import Mathlib

/-!
The tilenol tile server: row materialisation and server options.

A shallow embedding of `postgis_helpers.go` (`RowsToMaps`, `DumbScanner`) and of
`server/config.go` (`LoadConfig`, `ConfigFile`), with the properties of the written
specification stated over it. The assembly steps `CacheServer` and `ZoomRanges`, which
`config.go` holds only as the text of a string constant, are modelled from the
specification.

Conventions of the embedding:

* a Go slice that may be `nil` is an `Option (List α)`, `none` being `nil`;
* a Go `map[string]V` is a list of bindings read through `GoMap.get`, the newest binding
  of a key shadowing the older ones;
* a Go function `func(...) (T, error)` returns a pair whose second component is an
  `Option` of the error, `none` being the `nil` error;
* a Go function mutating `*Server` takes the server and returns the new one.
-/

namespace Tilenol

/-! ## Go maps and slices -/

/-- A Go `map[string]V`: bindings, newest first. -/
abbrev GoMap (V : Type) := List (String × V)

/-- The expression `m[k]` with its presence flag: the newest binding of `k`, if any. -/
def GoMap.get {V : Type} : GoMap V → String → Option V
  | [], _ => none
  | (k, v) :: rest, key => if key = k then some v else GoMap.get rest key

/-- The statement `m[k] = v`. -/
def GoMap.set {V : Type} (m : GoMap V) (k : String) (v : V) : GoMap V :=
  (k, v) :: m

/-- The keys bound in a map. -/
def GoMap.keys {V : Type} (m : GoMap V) : List String :=
  m.map Prod.fst

/-- A Go slice value: `none` is the `nil` slice. -/
abbrev GoSlice (α : Type) := Option (List α)

/-- The elements of a slice; the `nil` slice has none. -/
def GoSlice.elems {α : Type} (s : GoSlice α) : List α :=
  s.getD []

/-- The Go builtin `append(s, x)`: the result is never `nil`. -/
def GoSlice.append {α : Type} (s : GoSlice α) (x : α) : GoSlice α :=
  some (s.elems ++ [x])

/-! ## postgis_helpers.go -/

/-- The errors `RowsToMaps` can return: its own `InvalidGeometryErr`, or an error `e`
that came out of the row source. -/
inductive RowsError (Err : Type) where
  | InvalidGeometryErr
  | source (e : Err)
  deriving DecidableEq, Repr

/-- The two fields of `wkb.GeometryScanner` that `RowsToMaps` reads. -/
structure GeometryScanner (Geom : Type) where
  Geometry : Geom
  Valid : Bool
  deriving DecidableEq, Repr

/-- The struct `DumbScanner`. -/
structure DumbScanner (Raw : Type) where
  Value : Raw
  deriving DecidableEq, Repr

/-- The method `(*DumbScanner).Scan`: stores `src`, returns the `nil` error. -/
def DumbScanner.Scan {Raw Err : Type} (_d : DumbScanner Raw) (src : Raw) :
    DumbScanner Raw × Option Err :=
  ({ Value := src }, none)

/-- One element of the `row` slice: a `*wkb.GeometryScanner` or a `*DumbScanner`. -/
inductive Scanner (Raw Geom : Type) where
  | geom (g : GeometryScanner Geom)
  | dumb (d : DumbScanner Raw)
  deriving DecidableEq, Repr

/-- A value stored in a result map: a decoded geometry or whatever the row source handed
to the `DumbScanner`. -/
inductive Value (Raw Geom : Type) where
  | geometry (g : Geom)
  | raw (v : Raw)
  deriving DecidableEq, Repr

/-- One row delivered by `rows.Next()`: either the driver fails the `Scan` call by itself
with `e`, or it hands the value `cells idx` to the scanner of column `idx`. -/
inductive Row (Raw Err : Type) where
  | broken (e : Err)
  | values (cells : Nat → Raw)

/-- The interface `pgx.Rows` as far as `RowsToMaps` uses it: the column names of
`FieldDescriptions()`, the rows for which `Next()` returns true, in order, and the error
`Err()` reports once `Next()` has returned false (`none` when the rows were simply
exhausted, `some e` when fetching the next row failed). -/
structure Rows (Raw Err : Type) where
  fields : List String
  rows : List (Row Raw Err)
  err : Option Err

/-- Lines 22 to 30: the fresh `row` slice, one zero-valued scanner per column, a geometry
scanner exactly for the columns named `geomColumn`. -/
def newRow {Raw Geom : Type} [Inhabited Raw] [Inhabited Geom]
    (fields : List String) (geomColumn : String) : List (Scanner Raw Geom) :=
  fields.map fun col =>
    if col = geomColumn then Scanner.geom { Geometry := default, Valid := false }
    else Scanner.dumb { Value := default }

/-- The `Scan` method of one destination applied to the value `src`. The behaviour of
`(*wkb.GeometryScanner).Scan` belongs to the `orb` library and is the argument `wkbScan`:
it either fails or leaves the scanner in the returned state. -/
def Scanner.Scan {Raw Geom Err : Type} (wkbScan : Raw → Except Err (GeometryScanner Geom)) :
    Scanner Raw Geom → Raw → Except Err (Scanner Raw Geom)
  | Scanner.geom _, src =>
    match wkbScan src with
    | Except.error e => Except.error e
    | Except.ok g => Except.ok (Scanner.geom g)
  | Scanner.dumb d, src =>
    match DumbScanner.Scan d src with
    | (d1, none) => Except.ok (Scanner.dumb d1)
    | (_, some e) => Except.error e

/-- The driver filling the destinations from column `idx` on, left to right, stopping at
the first destination whose `Scan` fails. -/
def scanFrom {Raw Geom Err : Type} (wkbScan : Raw → Except Err (GeometryScanner Geom))
    (cells : Nat → Raw) : Nat → List (Scanner Raw Geom) → Except Err (List (Scanner Raw Geom))
  | _, [] => Except.ok []
  | idx, d :: rest =>
    match Scanner.Scan wkbScan d (cells idx) with
    | Except.error e => Except.error e
    | Except.ok d1 =>
      match scanFrom wkbScan cells (idx + 1) rest with
      | Except.error e => Except.error e
      | Except.ok rest1 => Except.ok (d1 :: rest1)

/-- The call `rows.Scan(row...)` on the current row. -/
def Rows.Scan {Raw Geom Err : Type} (wkbScan : Raw → Except Err (GeometryScanner Geom))
    (r : Row Raw Err) (dest : List (Scanner Raw Geom)) : Except Err (List (Scanner Raw Geom)) :=
  match r with
  | Row.broken e => Except.error e
  | Row.values cells => scanFrom wkbScan cells 0 dest

/-- Lines 36 to 48: the loop over the columns that fills the map `m` from the scanned
destinations; `none` is the `return nil, InvalidGeometryErr` of line 42. -/
def fillMap {Raw Geom : Type} :
    List (String × Scanner Raw Geom) → GoMap (Value Raw Geom) → Option (GoMap (Value Raw Geom))
  | [], m => some m
  | (col, Scanner.geom g) :: rest, m =>
    if g.Valid then fillMap rest (m.set col (Value.geometry g.Geometry)) else none
  | (col, Scanner.dumb ds) :: rest, m =>
    fillMap rest (m.set col (Value.raw ds.Value))

/-- The loop `for rows.Next()` of lines 21 to 50 over the rows still to come, `maps` being
the slice built so far; line 52 when no row is left. -/
def rowsLoop {Raw Geom Err : Type} [Inhabited Raw] [Inhabited Geom]
    (wkbScan : Raw → Except Err (GeometryScanner Geom))
    (fields : List String) (geomColumn : String) :
    List (Row Raw Err) → GoSlice (GoMap (Value Raw Geom)) →
      GoSlice (GoMap (Value Raw Geom)) × Option (RowsError Err)
  | [], maps => (maps, none)
  | r :: rest, maps =>
    match Rows.Scan wkbScan r (newRow fields geomColumn) with
    | Except.error e => (maps, some (RowsError.source e))
    | Except.ok row =>
      match fillMap (fields.zip row) [] with
      | none => (none, some RowsError.InvalidGeometryErr)
      | some m => rowsLoop wkbScan fields geomColumn rest (maps.append m)

/-- The function `RowsToMaps`: `maps` starts as the `nil` slice; `rows.Err()` is never
consulted. -/
def RowsToMaps {Raw Geom Err : Type} [Inhabited Raw] [Inhabited Geom]
    (wkbScan : Raw → Except Err (GeometryScanner Geom))
    (rows : Rows Raw Err) (geomColumn : String) :
    GoSlice (GoMap (Value Raw Geom)) × Option (RowsError Err) :=
  rowsLoop wkbScan rows.fields geomColumn rows.rows none

/-! ### Vocabulary for the properties of `RowsToMaps` -/

/-- Whether a scanned destination is fit for the map: a geometry scanner when its `Valid`
flag is set, a `DumbScanner` always. -/
def Scanner.valid {Raw Geom : Type} : Scanner Raw Geom → Bool
  | Scanner.geom g => g.Valid
  | Scanner.dumb _ => true

/-- Every geometry scanner among the scanned destinations has its `Valid` flag set. -/
def allValid {Raw Geom : Type} (row : List (Scanner Raw Geom)) : Bool :=
  row.all Scanner.valid

/-- One turn of the loop of `RowsToMaps` taken alone (lines 22 to 48): the error of
`rows.Scan`, or else the map built from the row (`none` for an invalid geometry). -/
def decodeRow {Raw Geom Err : Type} [Inhabited Raw] [Inhabited Geom]
    (wkbScan : Raw → Except Err (GeometryScanner Geom))
    (fields : List String) (geomColumn : String) (r : Row Raw Err) :
    Except Err (Option (GoMap (Value Raw Geom))) :=
  match Rows.Scan wkbScan r (newRow fields geomColumn) with
  | Except.error e => Except.error e
  | Except.ok row => Except.ok (fillMap (fields.zip row) [])

/-- Repeated `append(s, x)` for the elements of a list, first to last. -/
def GoSlice.appendAll {α : Type} : GoSlice α → List α → GoSlice α
  | s, [] => s
  | s, x :: xs => GoSlice.appendAll (s.append x) xs

/-! ## server/config.go -/

/-- The struct `CacheConfig`. -/
structure CacheConfig where
  ServerAddress : String
  deriving DecidableEq, Repr

/-- The struct `ElasticsearchConfig`. -/
structure ElasticsearchConfig where
  Host : String
  Port : Int
  Index : String
  GeometryField : String
  SourceFields : GoMap String
  deriving DecidableEq, Repr

/-- The struct `LayerConfig`; the pointer field `Elasticsearch` may be `nil`. -/
structure LayerConfig where
  Name : String
  Description : String
  Minzoom : Int
  Maxzoom : Int
  Elasticsearch : Option ElasticsearchConfig
  deriving DecidableEq, Repr

/-- The struct `Config`; the pointer field `Cache` is `nil` when the document has no cache
section. Ranging over a `nil` or an empty `Layers` slice is the same, so it is a list. -/
structure Config where
  Cache : Option CacheConfig
  Layers : List LayerConfig
  deriving DecidableEq, Repr

/-- The struct `redis.Options`, of which only `Addr` is set. -/
structure RedisOptions where
  Addr : String
  deriving DecidableEq, Repr

/-- A `*redis.Client`, known by the options it was built from. -/
structure RedisClient where
  opt : RedisOptions
  deriving DecidableEq, Repr

/-- The constructor `redis.NewClient`, which cannot fail. -/
def redis.NewClient (opt : RedisOptions) : RedisClient :=
  { opt := opt }

/-- A `*elastic.Client`, known by its URL. -/
structure ElasticClient where
  URL : String
  deriving DecidableEq, Repr

/-- The struct `Server`, whose declaration is outside the two files: the fields that
`ConfigFile`, the other options of `config.go` and the text of `NOTHING` assign, with
`Layer` the element type of `s.Layers`. -/
structure Server (Layer : Type) where
  Port : Nat
  InternalPort : Nat
  EnableCORS : Bool
  Simplify : Bool
  CacheClient : Option RedisClient
  CacheControl : String
  CacheTTL : Int
  ES : Option ElasticClient
  ESMappings : GoMap String
  ZoomRanges : GoMap (List Int)
  Layers : GoSlice Layer
  deriving DecidableEq, Repr

/-- The function `LoadConfig`: the strict YAML decoding of the file is the argument
`decode`; its error is returned as it is, its result is returned after being logged. -/
def LoadConfig {File Err : Type} (decode : File → Except Err Config) (configFile : File) :
    Except Err Config :=
  match decode configFile with
  | Except.error err => Except.error err
  | Except.ok config => Except.ok config

/-- Lines 62 to 69 of `ConfigFile`: the loop over `config.Layers`, `layers` being the slice
built so far. `CreateLayer` is declared outside the two files and is an argument. -/
def createLayers {Layer Err : Type} (CreateLayer : LayerConfig → Except Err Layer) :
    List LayerConfig → GoSlice Layer → Except Err (GoSlice Layer)
  | [], layers => Except.ok layers
  | layerConfig :: rest, layers =>
    match CreateLayer layerConfig with
    | Except.error err => Except.error err
    | Except.ok layer => createLayers CreateLayer rest (layers.append layer)

/-- The option returned by `ConfigFile(configFile)`, applied to the server `s`. -/
def ConfigFile {File Layer Err : Type} (decode : File → Except Err Config)
    (CreateLayer : LayerConfig → Except Err Layer) (configFile : File) (s : Server Layer) :
    Server Layer × Option Err :=
  match LoadConfig decode configFile with
  | Except.error err => (s, some err)
  | Except.ok config =>
    let s1 : Server Layer :=
      match config.Cache with
      | some cache =>
        { s with CacheClient := some (redis.NewClient { Addr := cache.ServerAddress }) }
      | none => s
    match createLayers CreateLayer config.Layers none with
    | Except.error err => (s1, some err)
    | Except.ok layers => ({ s1 with Layers := layers }, none)

/-! ### Assembly steps that `config.go` does not define

From line 103 on, `config.go` is one raw string constant, `NOTHING`: the options
`CacheControl` to `ZoomRanges` are its text, and package `server` defines no such
functions. The two steps below are therefore modelled from section 4.4 of the written
specification, not from that text. -/

/-- Modelled from the spec: the assembly step *Set cache server address*, which package
`server` does not define. "If the given address is non-empty, constructs a new cache
client and replaces any previously attached one; an empty address is a no-op that
preserves whatever cache client (if any) is already attached." The spec names no failure
for this step, so the error is always `nil`. -/
def CacheServer (Err : Type) {Layer : Type} (cacheServer : String) (s : Server Layer) :
    Server Layer × Option Err :=
  if cacheServer ≠ "" then
    ({ s with CacheClient := some (redis.NewClient { Addr := cacheServer }) }, none)
  else
    (s, none)

/-- Modelled from the spec: "each entry's value is split on the literal `-` separator".
The pieces between the occurrences of `-`, in order; there is always at least one. -/
def Split : List Char → List (List Char)
  | [] => [[]]
  | c :: cs =>
    if c = '-' then [] :: Split cs
    else
      match Split cs with
      | [] => [[c]]
      | p :: ps => (c :: p) :: ps

/-- Modelled from the spec: the zoom-range parsing of one value, which package `server`
does not define. "One part yields a minimum bound only (maximum defaults to a system-wide
maximum constant); two parts yield both bounds; any non-numeric part is silently ignored,
leaving the corresponding bound at its default rather than failing." The spec does not
say how a numeric part is read, nor what a value of three or more parts yields: the
reader `parseInt` (`none` for a non-numeric part) and the result `other` for such values
are arguments, as are the constants `MinZoom` and `MaxZoom`. -/
def zoomRange (MinZoom MaxZoom : Int) (parseInt : List Char → Option Int)
    (other : List (List Char) → List Int) (rangeStr : String) : List Int :=
  match Split rangeStr.data with
  | [p0] => [(parseInt p0).getD MinZoom, MaxZoom]
  | [p0, p1] => [(parseInt p0).getD MinZoom, (parseInt p1).getD MaxZoom]
  | parts => other parts

/-- Modelled from the spec: the assembly step *Set per-layer zoom ranges*, which package
`server` does not define. Every entry of the input is parsed by `zoomRange` and stored
under its key in a fresh mapping, which is assigned to the field, "replacing any prior
value wholesale (no merge)"; parsing never fails, so the error is always `nil`. -/
def ZoomRanges (Err : Type) {Layer : Type} (MinZoom MaxZoom : Int)
    (parseInt : List Char → Option Int) (other : List (List Char) → List Int)
    (strZoomRanges : GoMap String) (s : Server Layer) : Server Layer × Option Err :=
  let zoomRanges : GoMap (List Int) :=
    strZoomRanges.foldl
      (fun zoomRanges entry =>
        zoomRanges.set entry.1 (zoomRange MinZoom MaxZoom parseInt other entry.2)) []
  ({ s with ZoomRanges := zoomRanges }, none)

/-! ### Vocabulary for the properties of `ZoomRanges` -/

/-- A non-negative decimal integer as the specification writes it: one or more decimal
digits. -/
def IsDecimal (ds : List Char) : Prop :=
  ds ≠ [] ∧ ∀ c ∈ ds, c.isDigit = true

/-- The number a run of decimal digits denotes: the positional value in base ten of its
digits, read with `Nat.ofDigits` from the least significant one. -/
def decimalValue (ds : List Char) : Nat :=
  Nat.ofDigits 10 (ds.reverse.map fun c => c.toNat - 48)

/-- A sample reader of numeric parts: a run of decimal digits is read in base ten, any
other part is not numeric. -/
def sampleParseInt : List Char → Option Int :=
  fun ds => if ds.isEmpty || !ds.all Char.isDigit then none else some (decimalValue ds : Int)

/-- A sample layer configuration with an Elasticsearch backend. -/
def goodLayerConfig : LayerConfig :=
  { Name := "buildings", Description := "", Minzoom := 0, Maxzoom := 14,
    Elasticsearch := some { Host := "localhost", Port := 9200, Index := "buildings",
                            GeometryField := "geometry", SourceFields := [] } }

/-- A sample layer configuration without any backend. -/
def badLayerConfig : LayerConfig :=
  { Name := "roads", Description := "", Minzoom := 0, Maxzoom := 14, Elasticsearch := none }

/-- A sample configuration: a cache section and two layers, the second one without any
backend. -/
def sampleConfig : Config :=
  { Cache := some { ServerAddress := "cache:6379" },
    Layers := [goodLayerConfig] ++ badLayerConfig :: [] }

/-- A sample strict decoder: the document `foo: 1` is rejected for its unknown field, any
other document decodes to `sampleConfig`. -/
def sampleDecode : String → Except String Config :=
  fun doc =>
    if doc = "foo: 1" then Except.error "field foo not found in type Config"
    else Except.ok sampleConfig

/-- A sample `CreateLayer`: a layer needs a backend; the layer made is known by its name. -/
def sampleCreateLayer : LayerConfig → Except String String :=
  fun lc => if lc.Elasticsearch = none then Except.error "no backend" else Except.ok lc.Name

/-- A sample `(*wkb.GeometryScanner).Scan` over numbers: the value `0` stands for NULL and
leaves the scanner not valid, any other value decodes to itself. -/
def sampleWkbScan : Nat → Except String (GeometryScanner Nat) :=
  fun src =>
    if src = 0 then Except.ok { Geometry := 0, Valid := false }
    else Except.ok { Geometry := src, Valid := true }

/-- A server with every field at its Go zero value. -/
def Server.zero (Layer : Type) : Server Layer :=
  { Port := 0, InternalPort := 0, EnableCORS := false, Simplify := false,
    CacheClient := none, CacheControl := "", CacheTTL := 0, ES := none,
    ESMappings := [], ZoomRanges := [], Layers := none }

end Tilenol

/-! ## Properties of `RowsToMaps` -/

namespace Tilenol

section RowsToMapsLemmas

variable {Raw Geom Err : Type}

theorem GoMap.get_set {V : Type} (m : GoMap V) (k : String) (v : V) (key : String) :
    (m.set k v).get key = if key = k then some v else m.get key := by
  simp [GoMap.set, GoMap.get]

theorem GoSlice.elems_appendAll {α : Type} (s : GoSlice α) (xs : List α) :
    (s.appendAll xs).elems = s.elems ++ xs := by
  induction xs generalizing s with
  | nil => simp [GoSlice.appendAll]
  | cons x xs ih =>
    rw [GoSlice.appendAll, ih]
    simp [GoSlice.append, GoSlice.elems]

theorem GoSlice.appendAll_some {α : Type} (l : List α) (xs : List α) :
    GoSlice.appendAll (some l) xs = some (l ++ xs) := by
  induction xs generalizing l with
  | nil => simp [GoSlice.appendAll]
  | cons x xs ih =>
    rw [GoSlice.appendAll]
    simp [GoSlice.append, GoSlice.elems, ih]

theorem GoSlice.appendAll_nil_cons {α : Type} (x : α) (xs : List α) :
    GoSlice.appendAll (none : GoSlice α) (x :: xs) = some (x :: xs) := by
  rw [GoSlice.appendAll]
  simp [GoSlice.append, GoSlice.elems, GoSlice.appendAll_some]

theorem scanFrom_length (wkbScan : Raw → Except Err (GeometryScanner Geom))
    (cells : Nat → Raw) (dest : List (Scanner Raw Geom)) :
    ∀ (idx : Nat) (row : List (Scanner Raw Geom)),
      scanFrom wkbScan cells idx dest = Except.ok row → row.length = dest.length := by
  induction dest with
  | nil =>
    intro idx row h
    simp [scanFrom] at h
    subst h
    rfl
  | cons d rest ih =>
    intro idx row h
    rw [scanFrom] at h
    cases hd : Scanner.Scan wkbScan d (cells idx) with
    | error e => simp [hd] at h
    | ok d1 =>
      cases hr : scanFrom wkbScan cells (idx + 1) rest with
      | error e => simp [hd, hr] at h
      | ok rest1 =>
        simp [hd, hr] at h
        subst h
        simp [ih (idx + 1) rest1 hr]

theorem Rows.Scan_length (wkbScan : Raw → Except Err (GeometryScanner Geom))
    (r : Row Raw Err) (dest row : List (Scanner Raw Geom))
    (h : Rows.Scan wkbScan r dest = Except.ok row) : row.length = dest.length := by
  cases r with
  | broken e => simp [Rows.Scan] at h
  | values cells => exact scanFrom_length wkbScan cells dest 0 row h

theorem newRow_length [Inhabited Raw] [Inhabited Geom] (fields : List String)
    (geomColumn : String) :
    (newRow fields geomColumn : List (Scanner Raw Geom)).length = fields.length := by
  simp [newRow]

theorem fillMap_isSome (l : List (String × Scanner Raw Geom)) :
    ∀ m0 : GoMap (Value Raw Geom), (fillMap l m0).isSome = allValid (l.map Prod.snd) := by
  induction l with
  | nil => intro m0; simp [fillMap, allValid]
  | cons p rest ih =>
    intro m0
    obtain ⟨col, sc⟩ := p
    cases sc with
    | geom g =>
      rw [fillMap]
      by_cases hv : g.Valid = true
      · have := ih (m0.set col (Value.geometry g.Geometry))
        simp [allValid] at this
        simp [hv, allValid, Scanner.valid, this]
      · simp [hv, allValid, Scanner.valid]
    | dumb ds =>
      rw [fillMap]
      have := ih (m0.set col (Value.raw ds.Value))
      simp [allValid] at this
      simp [allValid, Scanner.valid, this]

theorem fillMap_zip_isSome [Inhabited Raw] [Inhabited Geom]
    (wkbScan : Raw → Except Err (GeometryScanner Geom)) (fields : List String)
    (geomColumn : String) (r : Row Raw Err) (row : List (Scanner Raw Geom))
    (h : Rows.Scan wkbScan r (newRow fields geomColumn) = Except.ok row) :
    (fillMap (fields.zip row) []).isSome = allValid row := by
  have hlen : row.length = fields.length := by
    rw [Rows.Scan_length wkbScan r _ row h, newRow_length]
  rw [fillMap_isSome, List.map_snd_zip]
  omega

theorem decodeRow_of_valid [Inhabited Raw] [Inhabited Geom]
    (wkbScan : Raw → Except Err (GeometryScanner Geom)) (fields : List String)
    (geomColumn : String) (r : Row Raw Err) (row : List (Scanner Raw Geom))
    (h : Rows.Scan wkbScan r (newRow fields geomColumn) = Except.ok row)
    (hv : allValid row = true) :
    ∃ m, fillMap (fields.zip row) [] = some m ∧
      decodeRow wkbScan fields geomColumn r = Except.ok (some m) := by
  have hs := fillMap_zip_isSome wkbScan fields geomColumn r row h
  rw [hv] at hs
  obtain ⟨m, hm⟩ := Option.isSome_iff_exists.mp hs
  exact ⟨m, hm, by simp [decodeRow, h, hm]⟩

/-- The loop over a run of rows that all scan and hold valid geometries appends their
maps, in order, and goes on with the rows that follow. -/
theorem rowsLoop_decoded_run [Inhabited Raw] [Inhabited Geom]
    (wkbScan : Raw → Except Err (GeometryScanner Geom)) (fields : List String)
    (geomColumn : String) (pre rest : List (Row Raw Err)) :
    ∀ acc : GoSlice (GoMap (Value Raw Geom)),
      (∀ r ∈ pre, ∃ row, Rows.Scan wkbScan r (newRow fields geomColumn) = Except.ok row ∧
        allValid row = true) →
      ∃ ms : List (GoMap (Value Raw Geom)),
        List.Forall₂ (fun r m => decodeRow wkbScan fields geomColumn r = Except.ok (some m))
          pre ms ∧
        rowsLoop wkbScan fields geomColumn (pre ++ rest) acc =
          rowsLoop wkbScan fields geomColumn rest (acc.appendAll ms) := by
  induction pre with
  | nil => intro acc _; exact ⟨[], List.Forall₂.nil, by simp [GoSlice.appendAll]⟩
  | cons r pre ih =>
    intro acc h
    obtain ⟨row, hrow, hval⟩ := h r (List.mem_cons_self _ _)
    obtain ⟨m, hm, hdec⟩ := decodeRow_of_valid wkbScan fields geomColumn r row hrow hval
    obtain ⟨ms, hms, hloop⟩ := ih (acc.append m) (fun r1 h1 => h r1 (List.mem_cons_of_mem _ h1))
    refine ⟨m :: ms, List.Forall₂.cons hdec hms, ?_⟩
    rw [List.cons_append, rowsLoop]
    simp only [hrow, hm]
    rw [hloop, GoSlice.appendAll]

theorem forall₂_getElem? {α β : Type} {R : α → β → Prop} {l₁ : List α} {l₂ : List β}
    (h : List.Forall₂ R l₁ l₂) :
    ∀ (i : Nat) (a : α), l₁[i]? = some a → ∃ b, l₂[i]? = some b ∧ R a b := by
  induction h with
  | nil => intro i a h1; simp at h1
  | cons hr _ ih =>
    intro i a h1
    cases i with
    | zero =>
      simp only [List.getElem?_cons_zero, Option.some.injEq] at h1
      subst h1
      exact ⟨_, by simp, hr⟩
    | succ j =>
      simp only [List.getElem?_cons_succ] at h1
      simpa using ih j a h1

/-- The content of the map filled from a scanned row of pairwise distinct columns,
starting from the map `m0` and from column index `k`. -/
theorem fillMap_scanFrom_content [Inhabited Raw] [Inhabited Geom]
    (wkbScan : Raw → Except Err (GeometryScanner Geom)) (cells : Nat → Raw)
    (geomColumn : String) (fields : List String) :
    ∀ (k : Nat) (row : List (Scanner Raw Geom)) (m0 m : GoMap (Value Raw Geom)),
      scanFrom wkbScan cells k (newRow fields geomColumn) = Except.ok row →
      fillMap (fields.zip row) m0 = some m → fields.Nodup →
      (∀ key, key ∉ fields → m.get key = m0.get key) ∧
      (∀ (j : Nat) (col : String), fields[j]? = some col →
        (col = geomColumn → ∃ gs, wkbScan (cells (k + j)) = Except.ok gs ∧ gs.Valid = true ∧
          m.get col = some (Value.geometry gs.Geometry)) ∧
        (col ≠ geomColumn → m.get col = some (Value.raw (cells (k + j))))) := by
  induction fields with
  | nil =>
    intro k row m0 m hscan hfill _
    simp only [List.zip_nil_left, fillMap, Option.some.injEq] at hfill
    subst hfill
    exact ⟨fun _ _ => rfl, fun j col h => by simp at h⟩
  | cons c cs ih =>
    intro k row m0 m hscan hfill hnd
    have hc : c ∉ cs := (List.nodup_cons.mp hnd).1
    have hcs : cs.Nodup := (List.nodup_cons.mp hnd).2
    by_cases hg : c = geomColumn
    · -- a geometry column
      have hnew : (newRow (c :: cs) geomColumn : List (Scanner Raw Geom)) =
          Scanner.geom { Geometry := default, Valid := false } :: newRow cs geomColumn := by
        simp [newRow, hg]
      rw [hnew, scanFrom, Scanner.Scan] at hscan
      cases hw : wkbScan (cells k) with
      | error e => simp [hw] at hscan
      | ok gs =>
        cases hr : scanFrom wkbScan cells (k + 1) (newRow cs geomColumn) with
        | error e => simp [hw, hr] at hscan
        | ok rest1 =>
          simp only [hw, hr, Except.ok.injEq] at hscan
          subst hscan
          rw [List.zip_cons_cons, fillMap] at hfill
          by_cases hv : gs.Valid = true
          · simp only [hv, if_true] at hfill
            obtain ⟨hout, hin⟩ := ih (k + 1) rest1 _ m hr hfill hcs
            refine ⟨?_, ?_⟩
            · intro key hkey
              have h1 : key ≠ c := fun h => hkey (h ▸ List.mem_cons_self _ _)
              have h2 : key ∉ cs := fun h => hkey (List.mem_cons_of_mem _ h)
              rw [hout key h2, GoMap.get_set, if_neg h1]
            · intro j col hj
              cases j with
              | zero =>
                simp only [List.getElem?_cons_zero, Option.some.injEq] at hj
                subst hj
                refine ⟨fun _ => ⟨gs, hw, hv, ?_⟩, fun hne => absurd hg hne⟩
                rw [hout c hc, GoMap.get_set, if_pos rfl]
              | succ j =>
                simp only [List.getElem?_cons_succ] at hj
                have := hin j col hj
                rwa [show k + 1 + j = k + (j + 1) by omega] at this
          · simp [hv] at hfill
    · -- any other column
      have hnew : (newRow (c :: cs) geomColumn : List (Scanner Raw Geom)) =
          Scanner.dumb { Value := default } :: newRow cs geomColumn := by
        simp [newRow, hg]
      rw [hnew, scanFrom, Scanner.Scan] at hscan
      cases hr : scanFrom wkbScan cells (k + 1) (newRow cs geomColumn) with
      | error e => simp [DumbScanner.Scan, hr] at hscan
      | ok rest1 =>
        simp only [DumbScanner.Scan, hr, Except.ok.injEq] at hscan
        subst hscan
        rw [List.zip_cons_cons, fillMap] at hfill
        obtain ⟨hout, hin⟩ := ih (k + 1) rest1 _ m hr hfill hcs
        refine ⟨?_, ?_⟩
        · intro key hkey
          have h1 : key ≠ c := fun h => hkey (h ▸ List.mem_cons_self _ _)
          have h2 : key ∉ cs := fun h => hkey (List.mem_cons_of_mem _ h)
          rw [hout key h2, GoMap.get_set, if_neg h1]
        · intro j col hj
          cases j with
          | zero =>
            simp only [List.getElem?_cons_zero, Option.some.injEq] at hj
            subst hj
            refine ⟨fun he => absurd he hg, fun _ => ?_⟩
            rw [hout c hc, GoMap.get_set, if_pos rfl]
            rfl
          | succ j =>
            simp only [List.getElem?_cons_succ] at hj
            have := hin j col hj
            rwa [show k + 1 + j = k + (j + 1) by omega] at this

/-- Every map of the returned slice that was not there before the loop was built from the
row at the matching position. -/
theorem rowsLoop_elems [Inhabited Raw] [Inhabited Geom]
    (wkbScan : Raw → Except Err (GeometryScanner Geom)) (fields : List String)
    (geomColumn : String) (rows : List (Row Raw Err)) :
    ∀ acc : GoSlice (GoMap (Value Raw Geom)),
      (rowsLoop wkbScan fields geomColumn rows acc).1.elems = [] ∨
      ∃ ms, (rowsLoop wkbScan fields geomColumn rows acc).1.elems = acc.elems ++ ms ∧
        ∀ (i : Nat) (m : GoMap (Value Raw Geom)), ms[i]? = some m →
          ∃ r, rows[i]? = some r ∧
            decodeRow wkbScan fields geomColumn r = Except.ok (some m) := by
  induction rows with
  | nil =>
    intro acc
    exact Or.inr ⟨[], by simp [rowsLoop], fun i m h => by simp at h⟩
  | cons r rest ih =>
    intro acc
    cases hs : Rows.Scan wkbScan r (newRow fields geomColumn) with
    | error e =>
      refine Or.inr ⟨[], ?_, fun i m h => by simp at h⟩
      rw [rowsLoop]
      simp only [hs, List.append_nil]
    | ok row =>
      cases hf : fillMap (fields.zip row) ([] : GoMap (Value Raw Geom)) with
      | none =>
        refine Or.inl ?_
        rw [rowsLoop]
        simp only [hs, hf]
        rfl
      | some m0 =>
        have hstep : rowsLoop wkbScan fields geomColumn (r :: rest) acc =
            rowsLoop wkbScan fields geomColumn rest (acc.append m0) := by
          rw [rowsLoop]
          simp only [hs, hf]
        rw [hstep]
        rcases ih (acc.append m0) with h | ⟨ms, hms, hidx⟩
        · exact Or.inl h
        · refine Or.inr ⟨m0 :: ms, ?_, ?_⟩
          · rw [hms]; simp [GoSlice.append, GoSlice.elems]
          · intro i m hi
            cases i with
            | zero =>
              simp only [List.getElem?_cons_zero, Option.some.injEq] at hi
              subst hi
              exact ⟨r, by simp, by simp [decodeRow, hs, hf]⟩
            | succ j =>
              simp only [List.getElem?_cons_succ] at hi
              simpa using hidx j m hi

end RowsToMapsLemmas

/-- C1. All or nothing on an invalid geometry: when the rows before `bad` all scan and
hold valid geometries, and `bad` scans but one of its geometry scanners has `Valid = false`,
`RowsToMaps` returns the `nil` slice with `InvalidGeometryErr`, whatever the number of
rows before `bad`, whatever follows it and however the row source ends. -/
theorem RowsToMaps_invalid_geometry {Raw Geom Err : Type} [Inhabited Raw] [Inhabited Geom]
    (wkbScan : Raw → Except Err (GeometryScanner Geom)) (fields : List String)
    (geomColumn : String) (pre post : List (Row Raw Err)) (bad : Row Raw Err)
    (err : Option Err) (badRow : List (Scanner Raw Geom))
    (hpre : ∀ r ∈ pre, ∃ row,
      Rows.Scan wkbScan r (newRow fields geomColumn) = Except.ok row ∧ allValid row = true)
    (hscan : Rows.Scan wkbScan bad (newRow fields geomColumn) = Except.ok badRow)
    (hbad : allValid badRow = false) :
    RowsToMaps wkbScan { fields := fields, rows := pre ++ bad :: post, err := err } geomColumn
      = (none, some RowsError.InvalidGeometryErr) := by
  obtain ⟨ms, _, hloop⟩ := rowsLoop_decoded_run wkbScan fields geomColumn pre (bad :: post) none hpre
  have hs := fillMap_zip_isSome wkbScan fields geomColumn bad badRow hscan
  rw [hbad] at hs
  have hnone : fillMap (fields.zip badRow) ([] : GoMap (Value Raw Geom)) = none := by
    cases hf : fillMap (fields.zip badRow) ([] : GoMap (Value Raw Geom)) with
    | none => rfl
    | some m => simp [hf] at hs
  simp only [RowsToMaps]
  rw [hloop, rowsLoop]
  simp only [hscan, hnone]

/-- Witness of C1: two columns, one good row, then a row whose geometry is NULL. -/
theorem RowsToMaps_invalid_geometry_witness :
    RowsToMaps sampleWkbScan
      { fields := ["id", "geom"],
        rows := [Row.values (fun idx => idx + 1)] ++ Row.values (fun _ => 0) :: [Row.broken "late"],
        err := none } "geom"
      = (none, some RowsError.InvalidGeometryErr) :=
  RowsToMaps_invalid_geometry sampleWkbScan ["id", "geom"] "geom" [Row.values (fun idx => idx + 1)]
    [Row.broken "late"] (Row.values (fun _ => 0)) none
    [Scanner.dumb { Value := 0 }, Scanner.geom { Geometry := 0, Valid := false }]
    (by
      intro r hr
      simp only [List.mem_singleton] at hr
      subst hr
      exact ⟨[Scanner.dumb { Value := 1 }, Scanner.geom { Geometry := 2, Valid := true }],
        rfl, rfl⟩)
    rfl rfl

/-- C2. Success: when every row scans and holds valid geometries, `RowsToMaps` returns the
`nil` error and a slice with as many maps as the source delivered rows, the map at index
`i` being the one built from the row at index `i`; without rows the slice is empty. -/
theorem RowsToMaps_success {Raw Geom Err : Type} [Inhabited Raw] [Inhabited Geom]
    (wkbScan : Raw → Except Err (GeometryScanner Geom)) (rows : Rows Raw Err)
    (geomColumn : String)
    (hall : ∀ r ∈ rows.rows, ∃ row,
      Rows.Scan wkbScan r (newRow rows.fields geomColumn) = Except.ok row ∧
        allValid row = true) :
    (RowsToMaps wkbScan rows geomColumn).2 = none ∧
    (RowsToMaps wkbScan rows geomColumn).1.elems.length = rows.rows.length ∧
    (∀ (i : Nat) (r : Row Raw Err), rows.rows[i]? = some r →
      ∃ m, (RowsToMaps wkbScan rows geomColumn).1.elems[i]? = some m ∧
        decodeRow wkbScan rows.fields geomColumn r = Except.ok (some m)) ∧
    (rows.rows = [] → (RowsToMaps wkbScan rows geomColumn).1.elems = []) := by
  obtain ⟨ms, hms, hloop⟩ :=
    rowsLoop_decoded_run wkbScan rows.fields geomColumn rows.rows [] none hall
  have hres : RowsToMaps wkbScan rows geomColumn = (GoSlice.appendAll none ms, none) := by
    simp only [RowsToMaps]
    rw [← List.append_nil rows.rows, hloop, rowsLoop]
  have helems : (RowsToMaps wkbScan rows geomColumn).1.elems = ms := by
    rw [hres]
    show (GoSlice.appendAll none ms).elems = ms
    rw [GoSlice.elems_appendAll]
    simp [GoSlice.elems]
  refine ⟨by rw [hres], ?_, ?_, ?_⟩
  · rw [helems]; exact hms.length_eq.symm
  · intro i r hr
    rw [helems]
    exact forall₂_getElem? hms i r hr
  · intro hnil
    rw [helems]
    rw [hnil] at hms
    cases hms
    rfl

/-- Witness of C2: two rows of two columns, both with a valid geometry. -/
theorem RowsToMaps_success_witness :
    (RowsToMaps sampleWkbScan
      { fields := ["id", "geom"],
        rows := [Row.values (fun idx => idx + 1), Row.values (fun idx => idx + 5)],
        err := none } "geom").1.elems.length = 2 :=
  (RowsToMaps_success sampleWkbScan
    { fields := ["id", "geom"],
      rows := [Row.values (fun idx => idx + 1), Row.values (fun idx => idx + 5)],
      err := none } "geom"
    (by
      intro r hr
      simp only [List.mem_cons, List.mem_singleton, List.not_mem_nil, or_false] at hr
      rcases hr with hr | hr
      · subst hr
        exact ⟨[Scanner.dumb { Value := 1 }, Scanner.geom { Geometry := 2, Valid := true }],
          rfl, rfl⟩
      · subst hr
        exact ⟨[Scanner.dumb { Value := 5 }, Scanner.geom { Geometry := 6, Valid := true }],
          rfl, rfl⟩)).2.1

/-- C4. Content of each map: with pairwise distinct column names, the map at index `i` of
the returned slice comes from the row at index `i`, whose values `cells` the source handed
over; its keys are exactly the column names; under a column named `geomColumn` it holds
the geometry decoded from that column's value, and under any other column the very value
the source handed to the scanner. `DumbScanner.Scan` stores its argument and returns the
`nil` error. -/
theorem RowsToMaps_map_content {Raw Geom Err : Type} [Inhabited Raw] [Inhabited Geom]
    (wkbScan : Raw → Except Err (GeometryScanner Geom)) (rows : Rows Raw Err)
    (geomColumn : String) (hnd : rows.fields.Nodup) (i : Nat) (m : GoMap (Value Raw Geom))
    (hm : (RowsToMaps wkbScan rows geomColumn).1.elems[i]? = some m) :
    (∃ cells, rows.rows[i]? = some (Row.values cells) ∧
      (∀ key, (m.get key).isSome = true ↔ key ∈ rows.fields) ∧
      (∀ (j : Nat) (col : String), rows.fields[j]? = some col →
        (col = geomColumn → ∃ gs, wkbScan (cells j) = Except.ok gs ∧ gs.Valid = true ∧
          m.get col = some (Value.geometry gs.Geometry)) ∧
        (col ≠ geomColumn → m.get col = some (Value.raw (cells j))))) ∧
    (∀ (d : DumbScanner Raw) (src : Raw),
      (DumbScanner.Scan d src : DumbScanner Raw × Option Err) = ({ Value := src }, none)) := by
  refine ⟨?_, fun d src => rfl⟩
  have hdec : ∃ r, rows.rows[i]? = some r ∧
      decodeRow wkbScan rows.fields geomColumn r = Except.ok (some m) := by
    rcases rowsLoop_elems wkbScan rows.fields geomColumn rows.rows none with h | ⟨ms, hms, hidx⟩
    · simp only [RowsToMaps] at hm
      rw [h] at hm
      simp at hm
    · simp only [RowsToMaps] at hm
      rw [hms] at hm
      simp only [GoSlice.elems, Option.getD_none, List.nil_append] at hm
      exact hidx i m hm
  obtain ⟨r, hr, hd⟩ := hdec
  cases r with
  | broken e => simp [decodeRow, Rows.Scan] at hd
  | values cells =>
    refine ⟨cells, hr, ?_⟩
    simp only [decodeRow, Rows.Scan] at hd
    cases hs : scanFrom wkbScan cells 0 (newRow rows.fields geomColumn) with
    | error e => simp [hs] at hd
    | ok row =>
      simp only [hs, Except.ok.injEq] at hd
      obtain ⟨hout, hin⟩ :=
        fillMap_scanFrom_content wkbScan cells geomColumn rows.fields 0 row [] m hs hd hnd
      have hin1 : ∀ (j : Nat) (col : String), rows.fields[j]? = some col →
          (col = geomColumn → ∃ gs, wkbScan (cells j) = Except.ok gs ∧ gs.Valid = true ∧
            m.get col = some (Value.geometry gs.Geometry)) ∧
          (col ≠ geomColumn → m.get col = some (Value.raw (cells j))) := by
        intro j col hj
        simpa using hin j col hj
      refine ⟨?_, hin1⟩
      intro key
      constructor
      · intro hsome
        by_contra hkey
        rw [hout key hkey] at hsome
        simp [GoMap.get] at hsome
      · intro hkey
        obtain ⟨j, hj⟩ := List.getElem?_of_mem hkey
        obtain ⟨h1, h2⟩ := hin1 j key hj
        by_cases hg : key = geomColumn
        · obtain ⟨gs, _, _, hget⟩ := h1 hg
          simp [hget]
        · simp [h2 hg]

/-- Witness of C4: the second map of a two-row result over the columns `id` and `geom`. -/
theorem RowsToMaps_map_content_witness :
    ∃ cells : Nat → Nat,
      ([Row.values (fun idx => idx + 1), Row.values (fun idx => idx + 5)] :
        List (Row Nat String))[1]? = some (Row.values cells) ∧
      GoMap.get [("geom", Value.geometry 6), ("id", (Value.raw 5 : Value Nat Nat))] "id"
        = some (Value.raw (cells 0)) :=
  have h := (RowsToMaps_map_content sampleWkbScan
    { fields := ["id", "geom"],
      rows := [Row.values (fun idx => idx + 1), Row.values (fun idx => idx + 5)],
      err := none } "geom" (by decide) 1
    [("geom", Value.geometry 6), ("id", Value.raw 5)] rfl).1
  h.elim fun cells hc => ⟨cells, hc.1, (hc.2.2 0 "id" rfl).2 (by decide)⟩

/-- C3, at the failing input: the source delivers one good row and then fails to fetch the
next one, so `Next()` returns false and `Err()` holds `"conn lost"`; `RowsToMaps` returns
the one map with the `nil` error. -/
theorem RowsToMaps_fetch_failure_dropped :
    RowsToMaps sampleWkbScan
      { fields := ["id", "geom"], rows := [Row.values (fun idx => idx + 1)],
        err := some "conn lost" } "geom"
      = (some [[("geom", Value.geometry 2), ("id", Value.raw 1)]], none) := by
  rfl

/-- C9, counterexample: when the very first row fails in `Scan`, the slice returned with
the scan error is the `nil` slice. -/
theorem RowsToMaps_scan_failure_first_row_nil :
    RowsToMaps sampleWkbScan
      { fields := ["id", "geom"], rows := [Row.broken "bad row"], err := none } "geom"
      = (none, some (RowsError.source "bad row")) := by
  rfl

/-- C9, amended. When the first `k` rows `pre` scan and hold valid geometries and the next
row fails in `Scan` with `e`, `RowsToMaps` returns `e` itself together with the `k` maps
built from `pre`, in source order, whatever follows; the slice is `nil` exactly when
`k = 0`. -/
theorem RowsToMaps_scan_failure_keeps_maps {Raw Geom Err : Type} [Inhabited Raw]
    [Inhabited Geom] (wkbScan : Raw → Except Err (GeometryScanner Geom))
    (fields : List String) (geomColumn : String) (pre post : List (Row Raw Err))
    (bad : Row Raw Err) (err : Option Err) (e : Err)
    (hpre : ∀ r ∈ pre, ∃ row,
      Rows.Scan wkbScan r (newRow fields geomColumn) = Except.ok row ∧ allValid row = true)
    (hscan : Rows.Scan wkbScan bad (newRow fields geomColumn)
      = Except.error e) :
    ∃ ms : List (GoMap (Value Raw Geom)),
      RowsToMaps wkbScan { fields := fields, rows := pre ++ bad :: post, err := err }
        geomColumn = (GoSlice.appendAll none ms, some (RowsError.source e)) ∧
      (GoSlice.appendAll none ms).elems = ms ∧
      ms.length = pre.length ∧
      (∀ (i : Nat) (r : Row Raw Err), pre[i]? = some r →
        ∃ m, ms[i]? = some m ∧ decodeRow wkbScan fields geomColumn r = Except.ok (some m)) ∧
      (GoSlice.appendAll none ms = none ↔ pre = []) := by
  obtain ⟨ms, hms, hloop⟩ :=
    rowsLoop_decoded_run wkbScan fields geomColumn pre (bad :: post) none hpre
  refine ⟨ms, ?_, ?_, hms.length_eq.symm, fun i r hr => forall₂_getElem? hms i r hr, ?_⟩
  · simp only [RowsToMaps]
    rw [hloop, rowsLoop]
    simp only [hscan]
  · rw [GoSlice.elems_appendAll]
    simp [GoSlice.elems]
  · cases hms with
    | nil => simp [GoSlice.appendAll]
    | cons _ _ => simp [GoSlice.appendAll_nil_cons]

/-- Witness of C9 amended: one good row, then a row the driver fails to scan. -/
theorem RowsToMaps_scan_failure_keeps_maps_witness :
    ∃ ms : List (GoMap (Value Nat Nat)),
      RowsToMaps sampleWkbScan
        { fields := ["id", "geom"],
          rows := [Row.values (fun idx => idx + 1)] ++ Row.broken "bad row" :: [],
          err := none } "geom" = (GoSlice.appendAll none ms, some (RowsError.source "bad row")) ∧
      ms.length = 1 :=
  have h := RowsToMaps_scan_failure_keeps_maps sampleWkbScan
    ["id", "geom"] "geom" [Row.values (fun idx => idx + 1)] [] (Row.broken "bad row") none
    "bad row"
    (by
      intro r hr
      simp only [List.mem_singleton] at hr
      subst hr
      exact ⟨[Scanner.dumb { Value := 1 }, Scanner.geom { Geometry := 2, Valid := true }],
        rfl, rfl⟩)
    rfl
  h.elim fun ms hms => ⟨ms, hms.1, hms.2.2.1⟩

/-! ## Properties of the options of `config.go` -/

section ConfigLemmas

variable {Layer Err : Type}

theorem createLayers_fails (CreateLayer : LayerConfig → Except Err Layer)
    (pre post : List LayerConfig) (bad : LayerConfig) (e : Err)
    (hpre : ∀ lc ∈ pre, ∃ layer, CreateLayer lc = Except.ok layer)
    (hbad : CreateLayer bad = Except.error e) :
    ∀ layers : GoSlice Layer,
      createLayers CreateLayer (pre ++ bad :: post) layers = Except.error e := by
  induction pre with
  | nil =>
    intro layers
    rw [List.nil_append, createLayers]
    simp only [hbad]
  | cons lc pre ih =>
    intro layers
    obtain ⟨layer, hl⟩ := hpre lc (List.mem_cons_self _ _)
    rw [List.cons_append, createLayers]
    simp only [hl]
    exact ih (fun lc1 h1 => hpre lc1 (List.mem_cons_of_mem _ h1)) _

end ConfigLemmas

/-- C7. Order sensitivity of the step `CacheServer`, as the specification describes it:
for non-empty addresses `A` and `B` every application returns the `nil` error;
`CacheServer(A)` then `CacheServer("")` and `CacheServer("")` then `CacheServer(A)` both
leave the client built for `A` attached and nothing else changed; `CacheServer(A)` then
`CacheServer(B)` leaves the client built for `B`; `CacheServer("")` alone leaves the
server as it was. -/
theorem CacheServer_order (Err : Type) {Layer : Type} (s : Server Layer) (A B : String)
    (hA : A ≠ "") (hB : B ≠ "") :
    (CacheServer Err A s).2 = none ∧
    CacheServer Err "" (CacheServer Err A s).1
      = ({ s with CacheClient := some (redis.NewClient { Addr := A }) }, none) ∧
    (CacheServer Err "" s).2 = none ∧
    CacheServer Err A (CacheServer Err "" s).1
      = ({ s with CacheClient := some (redis.NewClient { Addr := A }) }, none) ∧
    CacheServer Err B (CacheServer Err A s).1
      = ({ s with CacheClient := some (redis.NewClient { Addr := B }) }, none) ∧
    CacheServer Err "" s = (s, none) := by
  simp [CacheServer, hA, hB]

/-- Witness of C7: the addresses `cache-a:6379` and `cache-b:6379` on the zero server. -/
theorem CacheServer_order_witness :
    (CacheServer String "cache-b:6379"
      (CacheServer String "cache-a:6379" (Server.zero Unit)).1).1.CacheClient
      = some (redis.NewClient { Addr := "cache-b:6379" }) :=
  congrArg (fun r => r.1.CacheClient)
    (CacheServer_order String (Server.zero Unit) "cache-a:6379" "cache-b:6379"
      (by decide) (by decide)).2.2.2.2.1

/-- C8. Parse failure: when decoding the configuration file fails with `e`, the option of
`ConfigFile` returns `e` and the server is left exactly as it was, `CacheClient` and
`Layers` included; no client is built and `CreateLayer` plays no part. -/
theorem ConfigFile_parse_failure {File Layer Err : Type} (decode : File → Except Err Config)
    (CreateLayer : LayerConfig → Except Err Layer) (configFile : File) (s : Server Layer)
    (e : Err) (hdec : LoadConfig decode configFile = Except.error e) :
    ConfigFile decode CreateLayer configFile s = (s, some e) := by
  simp only [ConfigFile, hdec]

/-- Witness of C8: a document the strict decoder rejects for its unknown field. -/
theorem ConfigFile_parse_failure_witness :
    ConfigFile sampleDecode sampleCreateLayer "foo: 1" (Server.zero String)
      = (Server.zero String, some "field foo not found in type Config") :=
  ConfigFile_parse_failure sampleDecode sampleCreateLayer "foo: 1" (Server.zero String)
    "field foo not found in type Config" rfl

/-- C10. `ConfigFile` is not atomic on a layer failure: when the document is decoded into
`config`, the layers before `bad` are created and `CreateLayer` fails on `bad` with `e`,
the option returns `e` and `s.Layers` keeps its previous value; with a cache section the
server differs from `s` exactly by a new `CacheClient` bound to the configured address,
without one the server is unchanged. -/
theorem ConfigFile_layer_failure {File Layer Err : Type} (decode : File → Except Err Config)
    (CreateLayer : LayerConfig → Except Err Layer) (configFile : File) (s : Server Layer)
    (config : Config) (pre post : List LayerConfig) (bad : LayerConfig) (e : Err)
    (hdec : LoadConfig decode configFile = Except.ok config)
    (hlayers : config.Layers = pre ++ bad :: post)
    (hpre : ∀ lc ∈ pre, ∃ layer, CreateLayer lc = Except.ok layer)
    (hbad : CreateLayer bad = Except.error e) :
    (ConfigFile decode CreateLayer configFile s).2 = some e ∧
    (ConfigFile decode CreateLayer configFile s).1.Layers = s.Layers ∧
    (∀ cache, config.Cache = some cache →
      (ConfigFile decode CreateLayer configFile s).1
        = { s with CacheClient := some (redis.NewClient { Addr := cache.ServerAddress }) }) ∧
    (config.Cache = none → (ConfigFile decode CreateLayer configFile s).1 = s) := by
  have hfail := createLayers_fails CreateLayer pre post bad e hpre hbad (none : GoSlice Layer)
  rw [← hlayers] at hfail
  simp only [ConfigFile, hdec, hfail]
  cases hc : config.Cache with
  | none => simp
  | some cache => simp

/-- Witness of C10: a cache section and two layers, the second of which has no backend. -/
theorem ConfigFile_layer_failure_witness :
    (ConfigFile sampleDecode sampleCreateLayer "tilenol.yml" (Server.zero String)).1.CacheClient
      = some (redis.NewClient { Addr := "cache:6379" }) :=
  congrArg (fun srv : Server String => srv.CacheClient)
    ((ConfigFile_layer_failure sampleDecode sampleCreateLayer "tilenol.yml" (Server.zero String)
      sampleConfig [goodLayerConfig] [] badLayerConfig "no backend" rfl rfl
      (fun lc h => ⟨"buildings", by
        simp only [List.mem_singleton] at h
        subst h
        rfl⟩)
      rfl).2.2.1
      { ServerAddress := "cache:6379" } rfl)

section ZoomLemmas

theorem Split_no_dash (a : List Char) (h : '-' ∉ a) : Split a = [a] := by
  induction a with
  | nil => rfl
  | cons c cs ih =>
    have hc : c ≠ '-' := fun he => h (he ▸ List.mem_cons_self _ _)
    have hcs : '-' ∉ cs := fun he => h (List.mem_cons_of_mem _ he)
    rw [Split, if_neg hc, ih hcs]

theorem Split_append_dash (a b : List Char) (h : '-' ∉ a) :
    Split (a ++ '-' :: b) = a :: Split b := by
  induction a with
  | nil => rw [List.nil_append, Split, if_pos rfl]
  | cons c cs ih =>
    have hc : c ≠ '-' := fun he => h (he ▸ List.mem_cons_self _ _)
    have hcs : '-' ∉ cs := fun he => h (List.mem_cons_of_mem _ he)
    rw [List.cons_append, Split, if_neg hc, ih hcs]

theorem zoomRange_one_part (MinZoom MaxZoom : Int) (parseInt : List Char → Option Int)
    (other : List (List Char) → List Int) (a : List Char) (h : '-' ∉ a) :
    zoomRange MinZoom MaxZoom parseInt other (String.mk a)
      = [(parseInt a).getD MinZoom, MaxZoom] := by
  simp only [zoomRange, Split_no_dash a h]

theorem zoomRange_two_parts (MinZoom MaxZoom : Int) (parseInt : List Char → Option Int)
    (other : List (List Char) → List Int) (a b : List Char) (ha : '-' ∉ a) (hb : '-' ∉ b) :
    zoomRange MinZoom MaxZoom parseInt other (String.mk (a ++ '-' :: b))
      = [(parseInt a).getD MinZoom, (parseInt b).getD MaxZoom] := by
  simp only [zoomRange, Split_append_dash a b ha, Split_no_dash b hb]

theorem digit_ne_dash (c : Char) (h : c.isDigit = true) : c ≠ '-' := by
  intro he
  subst he
  exact absurd h (by decide)

theorem IsDecimal.no_dash {ds : List Char} (h : IsDecimal ds) : '-' ∉ ds :=
  fun hm => digit_ne_dash '-' (h.2 '-' hm) rfl

theorem decimalValue_five : decimalValue ['5'] = 5 := by
  simp [decimalValue, Nat.ofDigits]

theorem decimalValue_seven : decimalValue ['7'] = 7 := by
  simp [decimalValue, Nat.ofDigits]

theorem decimalValue_twelve : decimalValue ['1', '2'] = 12 := by
  simp [decimalValue, Nat.ofDigits]

theorem sampleParseInt_decimal (ds : List Char) (h : IsDecimal ds) :
    sampleParseInt ds = some (decimalValue ds : Int) := by
  obtain ⟨hne, hdig⟩ := h
  have hall : ds.all Char.isDigit = true := List.all_eq_true.mpr hdig
  cases ds with
  | nil => exact absurd rfl hne
  | cons c cs => simp [sampleParseInt, hall]

theorem GoMap.get_of_not_mem_keys {V : Type} (m : GoMap V) (k : String)
    (h : k ∉ m.keys) : m.get k = none := by
  induction m with
  | nil => rfl
  | cons p rest ih =>
    obtain ⟨k0, v0⟩ := p
    simp only [GoMap.keys, List.map_cons, List.mem_cons, not_or] at h
    rw [GoMap.get, if_neg h.1]
    exact ih h.2

/-- The mapping built entry by entry from entries with pairwise distinct keys, read at the
key `k`. -/
theorem zoomLoop_get {V W : Type} (f : V → W) (entries : GoMap V) (k : String) :
    ∀ acc : GoMap W, entries.keys.Nodup →
      (entries.foldl (fun z entry => z.set entry.1 (f entry.2)) acc).get k
        = match entries.get k with
          | some v => some (f v)
          | none => acc.get k := by
  induction entries with
  | nil => intro acc _; rfl
  | cons p rest ih =>
    intro acc hnd
    obtain ⟨k0, v0⟩ := p
    simp only [GoMap.keys, List.map_cons, List.nodup_cons] at hnd
    rw [List.foldl_cons, ih _ hnd.2]
    by_cases hk : k = k0
    · subst hk
      have hnone : GoMap.get rest k = none := GoMap.get_of_not_mem_keys rest k hnd.1
      simp [GoMap.get, hnone, GoMap.get_set]
    · simp only [GoMap.get, if_neg hk, GoMap.get_set]

theorem ZoomRanges_get (Err : Type) {Layer : Type} (MinZoom MaxZoom : Int)
    (parseInt : List Char → Option Int) (other : List (List Char) → List Int)
    (strZoomRanges : GoMap String) (s : Server Layer) (hnd : strZoomRanges.keys.Nodup)
    (k : String) :
    (ZoomRanges Err MinZoom MaxZoom parseInt other strZoomRanges s).1.ZoomRanges.get k
      = (strZoomRanges.get k).map (zoomRange MinZoom MaxZoom parseInt other) := by
  simp only [ZoomRanges]
  rw [zoomLoop_get (zoomRange MinZoom MaxZoom parseInt other) strZoomRanges k [] hnd]
  cases strZoomRanges.get k <;> rfl

end ZoomLemmas

/-- C6. Well-formed values, for the step `ZoomRanges` as the specification describes it
and any reader that reads a run of decimal digits as the number it denotes: for an input
whose keys are pairwise distinct, `ZoomRanges` returns no error and sets `s.ZoomRanges`
to a mapping with exactly the keys of the input, leaving the other fields alone; a value
`<min>` maps to `[min, MaxZoom]` and a value `<min>-<max>` maps to `[min, max]`
(`"5-12"` gives `[5, 12]`, `"7"` gives `[7, MaxZoom]`); the previous value of
`s.ZoomRanges` plays no part in the new one. -/
theorem ZoomRanges_well_formed (Err : Type) {Layer : Type} (MinZoom MaxZoom : Int)
    (parseInt : List Char → Option Int) (other : List (List Char) → List Int)
    (strZoomRanges : GoMap String) (s s1 : Server Layer)
    (hnd : strZoomRanges.keys.Nodup)
    (hparse : ∀ ds, IsDecimal ds → parseInt ds = some (decimalValue ds : Int)) :
    (ZoomRanges Err MinZoom MaxZoom parseInt other strZoomRanges s).2 = none ∧
    (∀ k,
      ((ZoomRanges Err MinZoom MaxZoom parseInt other strZoomRanges s).1.ZoomRanges.get k).isSome
        = (strZoomRanges.get k).isSome) ∧
    (∀ k ds, IsDecimal ds → strZoomRanges.get k = some (String.mk ds) →
      (ZoomRanges Err MinZoom MaxZoom parseInt other strZoomRanges s).1.ZoomRanges.get k
        = some [(decimalValue ds : Int), MaxZoom]) ∧
    (∀ k ds1 ds2, IsDecimal ds1 → IsDecimal ds2 →
      strZoomRanges.get k = some (String.mk (ds1 ++ '-' :: ds2)) →
      (ZoomRanges Err MinZoom MaxZoom parseInt other strZoomRanges s).1.ZoomRanges.get k
        = some [(decimalValue ds1 : Int), (decimalValue ds2 : Int)]) ∧
    zoomRange MinZoom MaxZoom parseInt other "5-12" = [5, 12] ∧
    zoomRange MinZoom MaxZoom parseInt other "7" = [7, MaxZoom] ∧
    (ZoomRanges Err MinZoom MaxZoom parseInt other strZoomRanges s).1
      = { s with ZoomRanges :=
            (ZoomRanges Err MinZoom MaxZoom parseInt other strZoomRanges s1).1.ZoomRanges } := by
  refine ⟨rfl, ?_, ?_, ?_, ?_, ?_, rfl⟩
  · intro k
    rw [ZoomRanges_get Err MinZoom MaxZoom parseInt other strZoomRanges s hnd k]
    cases strZoomRanges.get k <;> rfl
  · intro k ds hds hk
    rw [ZoomRanges_get Err MinZoom MaxZoom parseInt other strZoomRanges s hnd k, hk,
      Option.map_some', zoomRange_one_part MinZoom MaxZoom parseInt other ds hds.no_dash,
      hparse ds hds]
    rfl
  · intro k ds1 ds2 hds1 hds2 hk
    rw [ZoomRanges_get Err MinZoom MaxZoom parseInt other strZoomRanges s hnd k, hk,
      Option.map_some',
      zoomRange_two_parts MinZoom MaxZoom parseInt other ds1 ds2 hds1.no_dash hds2.no_dash,
      hparse ds1 hds1, hparse ds2 hds2]
    rfl
  · have h := zoomRange_two_parts MinZoom MaxZoom parseInt other ['5'] ['1', '2']
      (by decide) (by decide)
    rw [hparse ['5'] ⟨by decide, by decide⟩, hparse ['1', '2'] ⟨by decide, by decide⟩,
      decimalValue_five, decimalValue_twelve] at h
    exact h
  · have h := zoomRange_one_part MinZoom MaxZoom parseInt other ['7'] (by decide)
    rw [hparse ['7'] ⟨by decide, by decide⟩, decimalValue_seven] at h
    exact h

/-- Witness of C6: the entries `roads: "5-12"` and `pois: "7"`, read by `sampleParseInt`,
with the defaults `0` and `22`. -/
theorem ZoomRanges_well_formed_witness :
    (ZoomRanges String 0 22 sampleParseInt (fun _ => []) [("roads", "5-12"), ("pois", "7")]
        (Server.zero Unit)).1.ZoomRanges.get "roads" = some [5, 12] ∧
    (ZoomRanges String 0 22 sampleParseInt (fun _ => []) [("roads", "5-12"), ("pois", "7")]
        (Server.zero Unit)).1.ZoomRanges.get "pois" = some [7, 22] :=
  have h := ZoomRanges_well_formed String 0 22 sampleParseInt (fun _ => [])
    [("roads", "5-12"), ("pois", "7")] (Server.zero Unit) (Server.zero Unit)
    (by decide) sampleParseInt_decimal
  ⟨by
    have h1 := h.2.2.2.1 "roads" ['5'] ['1', '2'] ⟨by decide, by decide⟩
      ⟨by decide, by decide⟩ (by decide)
    rw [decimalValue_five, decimalValue_twelve] at h1
    exact h1,
   by
    have h2 := h.2.2.1 "pois" ['7'] ⟨by decide, by decide⟩ (by decide)
    rw [decimalValue_seven] at h2
    exact h2⟩

end Tilenol
